import Mathlib

/-!
Shallow embedding of `src/src/zmq/worker.cpp` from libbitcoin-protocol.

The worker is a lifecycle controller: `start()` spawns one background thread
running the (subclass-supplied) work loop, blocks on a one-shot start promise
and returns the boolean the loop published via `started(result)`; `stop()`
flips the stop flag, blocks on the finish promise and returns the boolean
published via `finished(result)`.  `forward` moves one message between two
sockets.

The two promise/future pairs (`started_`, `finished_`) are modelled as
`Option Bool` promise cells: `none` is a fresh promise, `some v` is a promise
whose value `v` has been set.  `get_future().get()` blocks until the cell is
`some v` and then yields `v`; after a `get` the code reassigns a fresh promise,
which is modelled by resetting the cell to `none`.

The concrete work loop is subclass code not part of this translation unit; it
participates only through the protocol methods `started`/`finished`/`stopped`.
It is abstracted by the booleans it passes to those methods: `start` takes the
boolean the spawned loop passes to `started`, and `stop` takes the boolean the
still-running loop passes to `finished` when it observes the stop (unused when
the finish promise was already fulfilled by the failed-start auto-finish path).

Observable actions (thread spawn, promise set/get, priority application, work
loop exit, socket receive/send) are recorded as explicit event traces so that
ordering and once-per-cycle claims can be stated.
-/

namespace LibbitcoinProtocol

/-- The `bc::thread_priority` hint passed to the `worker` constructor. -/
inductive ThreadPriority
  | normal
  | low
  | lowest
  | high
  | highest
deriving DecidableEq, Repr

/-- Observable actions of one worker, in program order. -/
inductive Event
  /-- `std::make_shared<asio::thread>(&worker::work, this)` in `start`. -/
  | spawnThread
  /-- `started_.set_value(result)` in `worker::started`. -/
  | setStarted (b : Bool)
  /-- `started_.get_future().get()` returning `b` in `worker::start`. -/
  | getStarted (b : Bool)
  /-- `set_priority(priority_)` in `worker::started`. -/
  | applyPriority (p : ThreadPriority)
  /-- `finished_.set_value(result)` in `worker::finished`. -/
  | setFinished (b : Bool)
  /-- `finished_.get_future().get()` returning `b` in `worker::stop`. -/
  | getFinished (b : Bool)
  /-- The spawned thread's work function returns (the thread goes dead). -/
  | loopExit
deriving DecidableEq, Repr

/-- State of one `worker` object (`worker.cpp`).  `thread_` is a
`std::shared_ptr<asio::thread>`; the model keeps only whether it holds a
thread object (`true`) or is empty (`false`). -/
structure worker where
  priority_ : ThreadPriority
  stopped_ : Bool
  thread_ : Bool
  started_ : Option Bool
  finished_ : Option Bool
deriving DecidableEq, Repr

namespace worker

/-- The `worker::worker(thread_priority priority)`: `priority_(priority)`,
`stopped_(true)`; the thread pointer is empty and both promises fresh. -/
def construct (priority : ThreadPriority) : worker :=
  { priority_ := priority
    stopped_ := true
    thread_ := false
    started_ := none
    finished_ := none }

/-- The `worker::stopped()`: `return stopped_;` (no lock acquired). -/
def stopped (w : worker) : Bool :=
  w.stopped_

/-- The `worker::finished(bool result)`: `finished_.set_value(result); return
result;`. -/
def finished (w : worker) (result : Bool) : worker × Bool × List Event :=
  ({ w with finished_ := some result }, result, [Event.setFinished result])

/-- The `worker::started(bool result)`: `started_.set_value(result)`, then
`set_priority(priority_)` if `result`, else `finished(true)`; returns
`result`. -/
def started (w : worker) (result : Bool) : worker × Bool × List Event :=
  let w1 : worker := { w with started_ := some result }
  if result then
    (w1, result, [Event.setStarted result, Event.applyPriority w.priority_])
  else
    let f := w1.finished true
    (f.1, result, Event.setStarted result :: f.2.2)

/-- The `worker::start()`, with the spawned work loop abstracted by `loopResult`,
the boolean it passes to `started` once it has tried to bind its endpoints.
Under the lock: if `stopped_`, clear it, assign the thread, block on the
start future (the value set by the loop's `started` call), reset the start
promise and return the value; otherwise return `false`.  On a failed start
the loop's work function returns right after `started` does, which the model
records as `loopExit`. -/
def start (w : worker) (loopResult : Bool) : worker × Bool × List Event :=
  if w.stopped_ then
    let w1 : worker := { w with stopped_ := false, thread_ := true }
    let s := w1.started loopResult
    let exitEvents : List Event := if loopResult then [] else [Event.loopExit]
    let result := s.1.started_.getD loopResult
    ({ s.1 with started_ := none }, result,
      Event.spawnThread :: s.2.2 ++ exitEvents ++ [Event.getStarted result])
  else
    (w, false, [])

/-- The `worker::stop()`, with the running work loop abstracted by `loopFinish`,
the boolean it passes to `finished` when it observes `stopped()`.  Under the
lock: if `!stopped_`, set it, block on the finish future — either the promise
was already fulfilled (the failed-start auto-finish path) or the loop now
publishes `loopFinish` and exits — reset the finish promise and return the
value; otherwise return `true`. -/
def stop (w : worker) (loopFinish : Bool) : worker × Bool × List Event :=
  if w.stopped_ then
    (w, true, [])
  else
    let w1 : worker := { w with stopped_ := true }
    match w1.finished_ with
    | some r =>
        ({ w1 with finished_ := none }, r, [Event.getFinished r])
    | none =>
        let f := w1.finished loopFinish
        let r := f.1.finished_.getD loopFinish
        ({ f.1 with finished_ := none }, r,
          f.2.2 ++ [Event.loopExit, Event.getFinished r])

end worker

/-- A zmq multipart message: a queue of byte frames. -/
structure message where
  parts : List (List Nat)
deriving DecidableEq, Repr

/-- The `zmq::message packet;` default-constructs an empty message. -/
def message.empty : message :=
  { parts := [] }

/-- A zmq socket, abstracted by its externally observable behavior:
`receive` fills the passed message and yields an error flag (`true` on
failure), `send` consumes a message and yields an error flag. -/
structure socket where
  receiveBehavior : message → Bool × message
  sendBehavior : message → Bool

/-- Observable socket actions of `worker::forward`. -/
inductive SockEvent
  | recvFrom
  | sendTo (m : message)
deriving DecidableEq, Repr

/-- Holds exactly on a `sendTo` event. -/
def SockEvent.isSend : SockEvent → Bool
  | .sendTo _ => true
  | .recvFrom => false

namespace worker

/-- The `worker::forward(socket& from, socket& to)`:
`message packet; return !from.receive(packet) && !to.send(packet);`
`&&` short-circuits: the send happens only when the receive succeeded. -/
def forward (src dst : socket) : Bool × List SockEvent :=
  let packet := message.empty
  let r := src.receiveBehavior packet
  if r.1 then
    (false, [SockEvent.recvFrom])
  else
    let sendError := dst.sendBehavior r.2
    (!sendError, [SockEvent.recvFrom, SockEvent.sendTo r.2])

end worker

/-- One `start(); stop()` lifecycle cycle: returns the final state, the pair
of booleans the two calls returned, and the combined event trace. -/
def worker.runCycle (w : worker) (r f : Bool) : worker × (Bool × Bool) × List Event :=
  let s := w.start r
  let t := s.1.stop f
  (t.1, (s.2.1, t.2.1), s.2.2 ++ t.2.2)

/-- Iterated cycles: final state and the list of per-cycle result pairs. -/
def worker.runCycles (w : worker) : List (Bool × Bool) → worker × List (Bool × Bool)
  | [] => (w, [])
  | c :: rest =>
    let y := w.runCycle c.1 c.2
    let z := y.1.runCycles rest
    (z.1, y.2.1 :: z.2)

/-- An external call on the worker's control surface, with the abstracted
work-loop boolean it involves. -/
inductive Op
  | start (loopResult : Bool)
  | stop (loopFinish : Bool)
deriving DecidableEq, Repr

/-- State transition and trace of one external call. -/
def worker.applyOp (w : worker) : Op → worker × List Event
  | .start r => ((w.start r).1, (w.start r).2.2)
  | .stop f => ((w.stop f).1, (w.stop f).2.2)

/-- Run a sequence of external calls, concatenating their traces. -/
def worker.runOps (w : worker) : List Op → worker × List Event
  | [] => (w, [])
  | o :: rest =>
    let y := w.applyOp o
    let z := y.1.runOps rest
    (z.1, y.2 ++ z.2)

def Event.isSpawn : Event → Bool
  | .spawnThread => true
  | _ => false

def Event.isExit : Event → Bool
  | .loopExit => true
  | _ => false

def Event.isSetStarted : Event → Bool
  | .setStarted _ => true
  | _ => false

def Event.isGetStarted : Event → Bool
  | .getStarted _ => true
  | _ => false

def Event.isSetFinished : Event → Bool
  | .setFinished _ => true
  | _ => false

def Event.isGetFinished : Event → Bool
  | .getFinished _ => true
  | _ => false

def Event.isApplyPriority : Event → Bool
  | .applyPriority _ => true
  | _ => false

/-- Number of live background threads implied by a worker state: the spawned
loop is still running exactly when the stop flag is clear and no finish value
is pending (a pending finish value means the loop already auto-finished after
a failed start). -/
def worker.liveLoops (w : worker) : Nat :=
  if w.stopped_ = false ∧ w.finished_ = none then 1 else 0

/-- A worker in the running state with both promises fresh, as left by a
successful `start`. -/
def runningW : worker :=
  { priority_ := ThreadPriority.normal
    stopped_ := false
    thread_ := true
    started_ := none
    finished_ := none }

/-- A socket whose receive always fails. -/
def failSource : socket :=
  { receiveBehavior := fun p => (true, p)
    sendBehavior := fun _ => false }

/-- A socket that accepts every send. -/
def okDest : socket :=
  { receiveBehavior := fun p => (false, p)
    sendBehavior := fun _ => false }

/-- C10: `worker::started` and `worker::finished` each return exactly the
boolean they were handed, so a work loop can tail-return the lifecycle
callback's value as its own success indicator. -/
theorem started_finished_return_argument (w : worker) (result : Bool) :
    (w.started result).2.1 = result ∧ (w.finished result).2.1 = result := by
  cases result <;> simp [worker.started, worker.finished]

/-- C3: `start` on a worker whose stop flag is clear (already running) returns
`false`, performs no observable action (in particular spawns no thread), and
leaves the state unchanged. -/
theorem start_when_running_noop (w : worker) (loopResult : Bool)
    (h : w.stopped_ = false) :
    w.start loopResult = (w, false, []) := by
  simp [worker.start, h]

/-- Witness: `start_when_running_noop` at the concrete running worker. -/
theorem start_when_running_noop_witness :
    runningW.start true = (runningW, false, []) :=
  start_when_running_noop runningW true (by decide)

/-- C5: a constructed worker is stopped with an empty thread pointer and
fresh promises, and `stop` on it returns `true` at once, unchanged state,
no events — the finish promise is never touched. -/
theorem stop_fresh_worker (p : ThreadPriority) (loopFinish : Bool) :
    (worker.construct p).stopped_ = true ∧
    (worker.construct p).thread_ = false ∧
    (worker.construct p).finished_ = none ∧
    (worker.construct p).stop loopFinish = (worker.construct p, true, []) := by
  refine ⟨rfl, rfl, rfl, ?_⟩
  simp [worker.stop, worker.construct]

/-- C1: `forward` returns `true` exactly when the receive and the subsequent
send both succeed, and when the receive fails it returns `false` with no send
ever issued. -/
theorem forward_true_iff_both_succeed (src dst : socket) :
    ((worker.forward src dst).1 = true ↔
      (src.receiveBehavior message.empty).1 = false ∧
      dst.sendBehavior (src.receiveBehavior message.empty).2 = false) ∧
    ((src.receiveBehavior message.empty).1 = true →
      (worker.forward src dst).1 = false ∧
      (worker.forward src dst).2.countP SockEvent.isSend = 0) := by
  unfold worker.forward
  rcases h : src.receiveBehavior message.empty with ⟨err, m⟩
  cases err <;>
    cases hs : dst.sendBehavior m <;>
      simp [h, hs, SockEvent.isSend]

/-- Witness: `forward_true_iff_both_succeed` at a failing source, with the
receive-failure hypothesis discharged concretely. -/
theorem forward_true_iff_both_succeed_witness :
    (worker.forward failSource okDest).1 = false ∧
    (worker.forward failSource okDest).2.countP SockEvent.isSend = 0 :=
  (forward_true_iff_both_succeed failSource okDest).2 rfl

/-- C2: `started false` synchronously fulfils the finish promise with `true`
(the auto-finish), so a later `stop` after a failed `start` consumes that
value and returns `true` immediately, without any participation from the
(already exited) work loop. -/
theorem started_false_auto_finishes (w : worker) (loopFinish : Bool)
    (h : w.stopped_ = true) :
    ((w.started false).1.finished_ = some true ∧
      (w.started false).2.2 = [Event.setStarted false, Event.setFinished true]) ∧
    ((w.start false).1.finished_ = some true ∧
      (w.start false).1.stop loopFinish =
        ({ w with thread_ := true, started_ := none, finished_ := none }, true,
          [Event.getFinished true])) := by
  refine ⟨⟨?_, ?_⟩, ?_, ?_⟩ <;>
    simp [worker.start, worker.started, worker.finished, worker.stop, h]

/-- Witness: `started_false_auto_finishes` at a freshly constructed worker. -/
theorem started_false_auto_finishes_witness :
    (((worker.construct ThreadPriority.normal).started false).1.finished_ = some true ∧
      ((worker.construct ThreadPriority.normal).started false).2.2 =
        [Event.setStarted false, Event.setFinished true]) ∧
    (((worker.construct ThreadPriority.normal).start false).1.finished_ = some true ∧
      ((worker.construct ThreadPriority.normal).start false).1.stop false =
        ({ worker.construct ThreadPriority.normal with
            thread_ := true, started_ := none, finished_ := none }, true,
          [Event.getFinished true])) :=
  started_false_auto_finishes (worker.construct ThreadPriority.normal) false rfl

/-- C4: on a stopped worker, `start` clears the stop flag, takes ownership of
a spawned thread, blocks on the start promise and returns exactly the boolean
the work loop published via `started`; on a running worker, `stop` sets the
stop flag, blocks on the finish promise and returns exactly the boolean
published via `finished` — the pending value if the loop already auto-finished,
otherwise the value the loop publishes on observing the stop. -/
theorem start_stop_handshake (w w' : worker) (r f : Bool)
    (hs : w.stopped_ = true) (hr : w'.stopped_ = false) :
    ((w.start r).2.1 = r ∧
      (w.start r).1.stopped_ = false ∧
      (w.start r).1.thread_ = true ∧
      Event.spawnThread ∈ (w.start r).2.2 ∧
      Event.setStarted r ∈ (w.start r).2.2 ∧
      Event.getStarted r ∈ (w.start r).2.2) ∧
    ((w'.stop f).1.stopped_ = true ∧
      (w'.stop f).2.1 = w'.finished_.getD f ∧
      Event.getFinished (w'.finished_.getD f) ∈ (w'.stop f).2.2) := by
  constructor
  · cases r <;> simp [worker.start, worker.started, worker.finished, hs]
  · rcases hf : w'.finished_ with _ | b <;>
      simp [worker.stop, worker.finished, hr, hf]

/-- Witness: `start_stop_handshake` at a fresh worker and the running
worker. -/
theorem start_stop_handshake_witness :
    (((worker.construct ThreadPriority.normal).start true).2.1 = true ∧
      ((worker.construct ThreadPriority.normal).start true).1.stopped_ = false ∧
      ((worker.construct ThreadPriority.normal).start true).1.thread_ = true ∧
      Event.spawnThread ∈ ((worker.construct ThreadPriority.normal).start true).2.2 ∧
      Event.setStarted true ∈ ((worker.construct ThreadPriority.normal).start true).2.2 ∧
      Event.getStarted true ∈ ((worker.construct ThreadPriority.normal).start true).2.2) ∧
    ((runningW.stop false).1.stopped_ = true ∧
      (runningW.stop false).2.1 = runningW.finished_.getD false ∧
      Event.getFinished (runningW.finished_.getD false) ∈ (runningW.stop false).2.2) :=
  start_stop_handshake (worker.construct ThreadPriority.normal) runningW true false rfl rfl

/-- C7: on `started true` the priority hint is applied exactly once,
immediately after the result is recorded on the start promise and before the
caller's wait is released; on `started false` (and a failed `start`) it is
never applied. -/
theorem priority_applied_once_after_started_true (w : worker)
    (hs : w.stopped_ = true) :
    (w.started true).2.2 =
      [Event.setStarted true, Event.applyPriority w.priority_] ∧
    (w.start true).2.2 =
      [Event.spawnThread, Event.setStarted true, Event.applyPriority w.priority_,
        Event.getStarted true] ∧
    (w.start true).2.2.countP Event.isApplyPriority = 1 ∧
    (w.started false).2.2.countP Event.isApplyPriority = 0 ∧
    (w.start false).2.2.countP Event.isApplyPriority = 0 := by
  refine ⟨?_, ?_, ?_, ?_, ?_⟩ <;>
    simp [worker.start, worker.started, worker.finished, hs,
      Event.isApplyPriority]

/-- Witness: `priority_applied_once_after_started_true` at a fresh worker. -/
theorem priority_applied_once_witness :
    ((worker.construct ThreadPriority.high).started true).2.2 =
      [Event.setStarted true, Event.applyPriority ThreadPriority.high] ∧
    ((worker.construct ThreadPriority.high).start true).2.2 =
      [Event.spawnThread, Event.setStarted true,
        Event.applyPriority ThreadPriority.high, Event.getStarted true] ∧
    ((worker.construct ThreadPriority.high).start true).2.2.countP
      Event.isApplyPriority = 1 ∧
    ((worker.construct ThreadPriority.high).started false).2.2.countP
      Event.isApplyPriority = 0 ∧
    ((worker.construct ThreadPriority.high).start false).2.2.countP
      Event.isApplyPriority = 0 :=
  priority_applied_once_after_started_true (worker.construct ThreadPriority.high) rfl

/-- One access to the `stopped_` member as written in `worker.cpp`: the
member function performing it, whether it is a write, and whether that
function holds `mutex_` at that point. -/
structure FlagAccess where
  memberFn : String
  isWrite : Bool
  underLock : Bool
deriving DecidableEq, Repr

/-- The `worker::start` reads `stopped_` in its guard and then writes it, both
inside the `unique_lock lock(mutex_)` critical section. -/
def startFlagAccesses : List FlagAccess :=
  [⟨"start", false, true⟩, ⟨"start", true, true⟩]

/-- The `worker::stop` reads `stopped_` in its guard and then writes it, both
inside its `unique_lock lock(mutex_)` critical section. -/
def stopFlagAccesses : List FlagAccess :=
  [⟨"stop", false, true⟩, ⟨"stop", true, true⟩]

/-- The `worker::stopped` is `return stopped_;` — it acquires no lock. -/
def stoppedFlagAccesses : List FlagAccess :=
  [⟨"stopped", false, false⟩]

/-- All accesses to `stopped_` in `worker.cpp`. -/
def allFlagAccesses : List FlagAccess :=
  startFlagAccesses ++ stopFlagAccesses ++ stoppedFlagAccesses

/-- C9 counterexample: not every access to `stopped_` happens under the lock —
the read in `worker::stopped` is lockless. -/
theorem stopped_reads_flag_without_lock :
    ¬ (∀ a ∈ allFlagAccesses, a.underLock = true) := by
  decide

/-- C9 amended: the accesses in `start` and `stop` — in particular every
write, so every transition of the flag — happen under the lock, while the
single access in `stopped` is a lockless read. -/
theorem flag_lock_discipline :
    (∀ a ∈ startFlagAccesses ++ stopFlagAccesses, a.underLock = true) ∧
    (∀ a ∈ allFlagAccesses, a.isWrite = true → a.underLock = true) ∧
    (∀ a ∈ stoppedFlagAccesses, a.isWrite = false ∧ a.underLock = false) := by
  decide

/-- Witness: `flag_lock_discipline` at the write access of `start`. -/
theorem flag_lock_discipline_witness :
    (⟨"start", true, true⟩ : FlagAccess).underLock = true :=
  flag_lock_discipline.2.1 ⟨"start", true, true⟩ (by decide) (by decide)

/-- The event trace of one full cycle run from a clean (stopped, fresh
promises) worker with priority `p`: success path if `r`, failed-start path
otherwise. -/
def cycleTrace (p : ThreadPriority) (r f : Bool) : List Event :=
  if r then
    [Event.spawnThread, Event.setStarted true, Event.applyPriority p,
      Event.getStarted true, Event.setFinished f, Event.loopExit,
      Event.getFinished f]
  else
    [Event.spawnThread, Event.setStarted false, Event.setFinished true,
      Event.loopExit, Event.getStarted false, Event.getFinished true]

/-- Running one cycle from a clean worker yields the clean worker again (with
the thread slot occupied), the results `(r, if r then f else true)`, and the
canonical trace. -/
theorem worker.runCycle_clean (w : worker) (r f : Bool)
    (h1 : w.stopped_ = true) (h2 : w.started_ = none) (h3 : w.finished_ = none) :
    w.runCycle r f =
      ({ w with thread_ := true }, (r, if r then f else true),
        cycleTrace w.priority_ r f) := by
  cases r <;>
    simp [worker.runCycle, worker.start, worker.started, worker.finished,
      worker.stop, cycleTrace, h1, h2, h3]

/-- Iterating cycles from a clean worker: every cycle reports
`(r, if r then f else true)` and the final state is clean again. -/
theorem worker.runCycles_clean (w : worker) (l : List (Bool × Bool))
    (h1 : w.stopped_ = true) (h2 : w.started_ = none) (h3 : w.finished_ = none) :
    (w.runCycles l).2 = l.map (fun c => (c.1, if c.1 then c.2 else true)) ∧
    (w.runCycles l).1.stopped_ = true ∧
    (w.runCycles l).1.started_ = none ∧
    (w.runCycles l).1.finished_ = none := by
  induction l generalizing w with
  | nil => simpa [worker.runCycles] using ⟨h1, h2, h3⟩
  | cons c rest ih =>
    have hc := worker.runCycle_clean w c.1 c.2 h1 h2 h3
    have ihw := ih { w with thread_ := true } h1 h2 h3
    simp only [worker.runCycles, hc, List.map_cons, List.cons.injEq]
    exact ⟨⟨trivial, ihw.1⟩, ihw.2.1, ihw.2.2.1, ihw.2.2.2⟩

/-- C6: from a clean worker each cycle consumes the start and the finish
signal exactly once (one set and one get each) and ends with both promises
reset and the worker clean again, so `start(); stop()` repeats indefinitely
with per-cycle results depending only on that cycle's work-loop booleans. -/
theorem signals_once_per_cycle_restartable (w : worker) (r f : Bool)
    (l : List (Bool × Bool))
    (h1 : w.stopped_ = true) (h2 : w.started_ = none) (h3 : w.finished_ = none) :
    ((w.runCycle r f).2.2.countP Event.isSetStarted = 1 ∧
      (w.runCycle r f).2.2.countP Event.isGetStarted = 1 ∧
      (w.runCycle r f).2.2.countP Event.isSetFinished = 1 ∧
      (w.runCycle r f).2.2.countP Event.isGetFinished = 1) ∧
    ((w.runCycle r f).1 = { w with thread_ := true } ∧
      (w.runCycle r f).1.started_ = none ∧
      (w.runCycle r f).1.finished_ = none ∧
      (w.runCycle r f).1.stopped_ = true) ∧
    (w.runCycles l).2 = l.map (fun c => (c.1, if c.1 then c.2 else true)) := by
  have hc := worker.runCycle_clean w r f h1 h2 h3
  refine ⟨?_, ?_, (worker.runCycles_clean w l h1 h2 h3).1⟩
  · rw [hc]
    cases r <;>
      simp [cycleTrace, Event.isSetStarted, Event.isGetStarted,
        Event.isSetFinished, Event.isGetFinished]
  · rw [hc]
    exact ⟨rfl, h2, h3, h1⟩

/-- Witness: `signals_once_per_cycle_restartable` at a fresh worker, one
successful cycle, and the cycle list `[(true, true), (false, false)]`. -/
theorem signals_once_per_cycle_restartable_witness :
    (((worker.construct ThreadPriority.normal).runCycle true false).2.2.countP
        Event.isSetStarted = 1 ∧
      ((worker.construct ThreadPriority.normal).runCycle true false).2.2.countP
        Event.isGetStarted = 1 ∧
      ((worker.construct ThreadPriority.normal).runCycle true false).2.2.countP
        Event.isSetFinished = 1 ∧
      ((worker.construct ThreadPriority.normal).runCycle true false).2.2.countP
        Event.isGetFinished = 1) ∧
    (((worker.construct ThreadPriority.normal).runCycle true false).1 =
        { worker.construct ThreadPriority.normal with thread_ := true } ∧
      ((worker.construct ThreadPriority.normal).runCycle true false).1.started_ = none ∧
      ((worker.construct ThreadPriority.normal).runCycle true false).1.finished_ = none ∧
      ((worker.construct ThreadPriority.normal).runCycle true false).1.stopped_ = true) ∧
    ((worker.construct ThreadPriority.normal).runCycles
        [(true, true), (false, false)]).2 =
      [(true, true), (false, false)].map (fun c => (c.1, if c.1 then c.2 else true)) :=
  signals_once_per_cycle_restartable (worker.construct ThreadPriority.normal)
    true false [(true, true), (false, false)] rfl rfl rfl

/-- Per-call live-thread accounting: across the trace of one external call,
every prefix keeps the number of spawned-but-not-yet-exited threads (offset
by the loops live on entry) between 0 and 1; the full trace transfers the
live count to the post state; and the reachability invariant (fresh start
promise, no pending finish value while stopped) is preserved. -/
theorem worker.applyOp_live (w : worker) (o : Op)
    (hstart : w.started_ = none)
    (hstop : w.stopped_ = true → w.finished_ = none) :
    (∀ n,
      ((w.applyOp o).2.take n).countP Event.isExit ≤
        w.liveLoops + ((w.applyOp o).2.take n).countP Event.isSpawn ∧
      w.liveLoops + ((w.applyOp o).2.take n).countP Event.isSpawn ≤
        ((w.applyOp o).2.take n).countP Event.isExit + 1) ∧
    (w.liveLoops + (w.applyOp o).2.countP Event.isSpawn =
      (w.applyOp o).2.countP Event.isExit + (w.applyOp o).1.liveLoops) ∧
    (w.applyOp o).1.started_ = none ∧
    ((w.applyOp o).1.stopped_ = true → (w.applyOp o).1.finished_ = none) := by
  have hk : w.liveLoops ≤ 1 := by
    unfold worker.liveLoops
    split <;> omega
  rcases o with r | f
  · cases hw : w.stopped_
    · -- start on a worker whose stop flag is already clear: no-op
      refine ⟨?_, ?_, ?_, ?_⟩
      · intro n
        simp only [worker.applyOp, worker.start, hw]
        simp
        omega
      · simp only [worker.applyOp, worker.start, hw]
        simp
      · simp only [worker.applyOp, worker.start, hw]
        exact hstart
      · simp only [worker.applyOp, worker.start, hw]
        exact hstop
    · -- start on a stopped worker
      have hf : w.finished_ = none := hstop hw
      have hk0 : w.liveLoops = 0 := by simp [worker.liveLoops, hw]
      cases r
      · -- failed start: the loop auto-finishes and exits
        have ht : (w.applyOp (Op.start false)).2 =
            [Event.spawnThread, Event.setStarted false, Event.setFinished true,
              Event.loopExit, Event.getStarted false] := by
          simp [worker.applyOp, worker.start, worker.started, worker.finished, hw]
        have hp : (w.applyOp (Op.start false)).1 =
            { w with
              stopped_ := false, thread_ := true, started_ := none,
              finished_ := some true } := by
          simp [worker.applyOp, worker.start, worker.started, worker.finished, hw]
        refine ⟨?_, ?_, ?_, ?_⟩
        · intro n
          rw [ht, hk0]
          obtain _ | _ | _ | _ | _ | n := n <;>
            simp [List.take_succ_cons, List.countP_cons, Event.isSpawn,
              Event.isExit]
        · rw [ht, hp, hk0]
          simp [List.countP_cons, Event.isSpawn, Event.isExit,
            worker.liveLoops]
        · rw [hp]
        · rw [hp]
          simp
      · -- successful start: the loop stays live
        have ht : (w.applyOp (Op.start true)).2 =
            [Event.spawnThread, Event.setStarted true,
              Event.applyPriority w.priority_, Event.getStarted true] := by
          simp [worker.applyOp, worker.start, worker.started, hw]
        have hp : (w.applyOp (Op.start true)).1 =
            { w with stopped_ := false, thread_ := true, started_ := none } := by
          simp [worker.applyOp, worker.start, worker.started, hw]
        refine ⟨?_, ?_, ?_, ?_⟩
        · intro n
          rw [ht, hk0]
          obtain _ | _ | _ | _ | n := n <;>
            simp [List.take_succ_cons, List.countP_cons, Event.isSpawn,
              Event.isExit]
        · rw [ht, hp, hk0]
          simp [List.countP_cons, Event.isSpawn, Event.isExit,
            worker.liveLoops, hf]
        · rw [hp]
        · rw [hp]
          simp
  · cases hw : w.stopped_
    · -- stop on a running worker
      cases hfin : w.finished_ with
      | none =>
        -- the loop publishes its result and exits
        have hk1 : w.liveLoops = 1 := by simp [worker.liveLoops, hw, hfin]
        have ht : (w.applyOp (Op.stop f)).2 =
            [Event.setFinished f, Event.loopExit, Event.getFinished f] := by
          simp [worker.applyOp, worker.stop, worker.finished, hw, hfin]
        have hp : (w.applyOp (Op.stop f)).1 =
            { w with stopped_ := true, finished_ := none } := by
          simp [worker.applyOp, worker.stop, worker.finished, hw, hfin]
        refine ⟨?_, ?_, ?_, ?_⟩
        · intro n
          rw [ht, hk1]
          obtain _ | _ | _ | _ | n := n <;>
            simp [List.take_succ_cons, List.countP_cons, Event.isSpawn,
              Event.isExit]
        · rw [ht, hp, hk1]
          simp [List.countP_cons, Event.isSpawn, Event.isExit,
            worker.liveLoops]
        · rw [hp]
          exact hstart
        · rw [hp]
          simp
      | some b =>
        -- pending auto-finish value: consumed, no loop participation
        have hk0 : w.liveLoops = 0 := by simp [worker.liveLoops, hfin]
        have ht : (w.applyOp (Op.stop f)).2 = [Event.getFinished b] := by
          simp [worker.applyOp, worker.stop, hw, hfin]
        have hp : (w.applyOp (Op.stop f)).1 =
            { w with stopped_ := true, finished_ := none } := by
          simp [worker.applyOp, worker.stop, hw, hfin]
        refine ⟨?_, ?_, ?_, ?_⟩
        · intro n
          rw [ht, hk0]
          obtain _ | _ | n := n <;>
            simp [List.take_succ_cons, List.countP_cons, Event.isSpawn,
              Event.isExit]
        · rw [ht, hp, hk0]
          simp [List.countP_cons, Event.isSpawn, Event.isExit,
            worker.liveLoops]
        · rw [hp]
          exact hstart
        · rw [hp]
          simp
    · -- stop on an already stopped worker: no-op
      refine ⟨?_, ?_, ?_, ?_⟩
      · intro n
        simp only [worker.applyOp, worker.stop, hw]
        simp
        omega
      · simp only [worker.applyOp, worker.stop, hw]
        simp
      · simp only [worker.applyOp, worker.stop, hw]
        exact hstart
      · simp only [worker.applyOp, worker.stop, hw]
        exact hstop

/-- Live-thread accounting over any sequence of external calls: every prefix
of the combined trace keeps the number of spawned-but-not-exited threads
(offset by the loops live on entry) between 0 and 1, the full trace transfers
the live count, and the reachability invariant is preserved. -/
theorem worker.runOps_live (w : worker) (ops : List Op)
    (hstart : w.started_ = none)
    (hstop : w.stopped_ = true → w.finished_ = none) :
    (∀ n,
      ((w.runOps ops).2.take n).countP Event.isExit ≤
        w.liveLoops + ((w.runOps ops).2.take n).countP Event.isSpawn ∧
      w.liveLoops + ((w.runOps ops).2.take n).countP Event.isSpawn ≤
        ((w.runOps ops).2.take n).countP Event.isExit + 1) ∧
    (w.liveLoops + (w.runOps ops).2.countP Event.isSpawn =
      (w.runOps ops).2.countP Event.isExit + (w.runOps ops).1.liveLoops) ∧
    (w.runOps ops).1.started_ = none ∧
    ((w.runOps ops).1.stopped_ = true → (w.runOps ops).1.finished_ = none) := by
  induction ops generalizing w with
  | nil =>
    have hk : w.liveLoops ≤ 1 := by
      unfold worker.liveLoops
      split <;> omega
    refine ⟨?_, ?_, hstart, hstop⟩
    · intro n
      simp [worker.runOps]
      omega
    · simp [worker.runOps]
  | cons o rest ih =>
    obtain ⟨hA, hEq, hS, hF⟩ := worker.applyOp_live w o hstart hstop
    obtain ⟨ihA, ihEq, ihS, ihF⟩ := ih (w.applyOp o).1 hS hF
    have hsplit : (w.runOps (o :: rest)).2 =
        (w.applyOp o).2 ++ ((w.applyOp o).1.runOps rest).2 := by
      simp [worker.runOps]
    have hpost : (w.runOps (o :: rest)).1 = ((w.applyOp o).1.runOps rest).1 := by
      simp [worker.runOps]
    refine ⟨?_, ?_, ?_, ?_⟩
    · intro n
      rw [hsplit, List.take_append_eq_append_take, List.countP_append,
        List.countP_append]
      rcases le_or_lt n (w.applyOp o).2.length with hn | hn
      · have hz : n - (w.applyOp o).2.length = 0 := Nat.sub_eq_zero_of_le hn
        rw [hz]
        have := hA n
        simp only [List.take_zero, List.countP_nil]
        omega
      · have hfull : (w.applyOp o).2.take n = (w.applyOp o).2 :=
          List.take_of_length_le hn.le
        rw [hfull]
        have h1 := ihA (n - (w.applyOp o).2.length)
        omega
    · rw [hsplit, hpost, List.countP_append, List.countP_append]
      omega
    · rw [hpost]
      exact ihS
    · rw [hpost]
      exact ihF

/-- C8 counterexample: after one completed `start(); stop()` cycle the worker
is in the stopped state, yet the thread handle is still occupied — `stop`
never clears `thread_`. -/
theorem thread_handle_persists_after_stop :
    ((worker.construct ThreadPriority.normal).runCycle true true).1.stopped_ = true ∧
    ((worker.construct ThreadPriority.normal).runCycle true true).1.thread_ = true := by
  decide

/-- C8 amended: over every sequence of external calls from a constructed
worker, every trace prefix has at most one spawned-but-not-exited thread (and
never more exits than spawns); the handle is empty at construction; but
`stop` leaves the handle untouched, so it stays occupied after a cycle. -/
theorem at_most_one_live_thread (p : ThreadPriority) (ops : List Op) (n : Nat)
    (w : worker) (f : Bool) :
    (worker.construct p).thread_ = false ∧
    (((worker.construct p).runOps ops).2.take n).countP Event.isExit ≤
      (((worker.construct p).runOps ops).2.take n).countP Event.isSpawn ∧
    (((worker.construct p).runOps ops).2.take n).countP Event.isSpawn ≤
      (((worker.construct p).runOps ops).2.take n).countP Event.isExit + 1 ∧
    (w.stop f).1.thread_ = w.thread_ := by
  have hl : (worker.construct p).liveLoops = 0 := by
    simp [worker.liveLoops, worker.construct]
  have h := (worker.runOps_live (worker.construct p) ops rfl fun _ => rfl).1 n
  refine ⟨rfl, ?_, ?_, ?_⟩
  · omega
  · omega
  · cases hw : w.stopped_
    · cases hfin : w.finished_ <;> simp [worker.stop, worker.finished, hw, hfin]
    · simp [worker.stop, hw]

end LibbitcoinProtocol
